import Mathlib

/-!
Verification of core numerical-engine routines of the InMAP air-quality
model against its natural-language specification.

Go `float64` values are embedded as exact numbers (`ℚ` where the code uses
only field operations, absolute values and comparisons; `ℝ`/`ℝ≥0∞` where a
square root or an IEEE `+Inf` produced by positive/zero division matters).
Go slices become `List`s, structs become structures, and functions that
mutate a struct in place become functions returning the updated structure.
-/

namespace InMAP

/-! ## Emissions addition (`addEmissionsFlux`)

Embeds `AIMdata.addEmissionsFlux`: for every cell, for each pollutant
index `i` of `initialConc`, the code does
`finalConc[i] += emisFlux[i] * Dt; initialConc[i] = finalConc[i]`.
The three concentration slices are allocated together with identical
length (the number of pollutants), so the index-wise loop is embedded
with `List.zipWith` plus an equal-length hypothesis in the theorems. -/

/-- The part of the Go `AIMcell` state touched or read by
`addEmissionsFlux`, together with representative untouched fields
(`Dx`, `Dy`, `Dz`, `Volume`) used to state frame conditions. -/
structure AIMcell where
  initialConc : List ℚ
  finalConc : List ℚ
  emisFlux : List ℚ
  Dx : ℚ
  Dy : ℚ
  Dz : ℚ
  Volume : ℚ
  deriving Repr, DecidableEq

/-- One cell's update in `AIMdata.addEmissionsFlux`:
`finalConc[i] += emisFlux[i]*Dt` followed by
`initialConc[i] = finalConc[i]` for every pollutant index `i`. -/
def addEmissionsFluxCell (Dt : ℚ) (c : AIMcell) : AIMcell :=
  let final := List.zipWith (fun f e => f + e * Dt) c.finalConc c.emisFlux
  { c with finalConc := final, initialConc := final }

/-- The data of `AIMdata` used by `addEmissionsFlux`: the cell list and
the current time step `Dt` (seconds). -/
structure AIMdata where
  Data : List AIMcell
  Dt : ℚ
  deriving Repr, DecidableEq

/-- `AIMdata.addEmissionsFlux` applied over all cells (the Go code
partitions the cell list over workers; every cell is updated exactly
once, so the combined effect is a map over the cell list). -/
def addEmissionsFlux (d : AIMdata) : AIMdata :=
  { d with Data := d.Data.map (addEmissionsFluxCell d.Dt) }

/-! ## Variable-resolution grid: `PopConcMutator` and `MutateGrid` totals -/

/-- The cell fields read by `PopConcMutator` and by the total-mass and
total-population sums at the start of `MutateGrid`. -/
structure CellData where
  Cf : List ℚ
  Volume : ℚ
  PopData : List ℚ
  Layer : ℤ
  deriving Repr, DecidableEq

/-- A cell together with its four horizontal neighbor lists
(Go `cell.west`, `cell.east`, `cell.north`, `cell.south`). -/
structure PCCell extends CellData where
  west : List CellData
  east : List CellData
  north : List CellData
  south : List CellData
  deriving Repr, DecidableEq

/-- `ΣΔC` in `PopConcMutator`: sum over the neighbor's pollutants of
`|conc - cell.Cf[i]|` (the slices have equal length — one entry per
pollutant — so the indexed loop is a `zipWith` sum). -/
def sumAbsConcDiff (cell n : CellData) : ℚ :=
  (List.zipWith (fun conc c => |conc - c|) n.Cf cell.Cf).sum

/-- The body of the `GridMutator` closure returned by
`PopConcMutator(threshold, config, popIndices)`; `iPop` is
`popIndices[config.PopGridColumn]`. Returns `false` immediately when
`totalMass == 0 || totalPopulation == 0`; otherwise tests each
horizontal neighbor in order. -/
def popConcMutator (threshold : ℚ) (iPop : ℕ) (cell : PCCell)
    (totalMass totalPopulation : ℚ) : Bool :=
  if totalMass = 0 ∨ totalPopulation = 0 then false
  else
    let totalMassPop := totalMass * totalPopulation
    (cell.west ++ cell.east ++ cell.north ++ cell.south).any fun neighbor =>
      decide (sumAbsConcDiff cell.toCellData neighbor *
        (cell.Volume + neighbor.Volume) *
        |cell.PopData.getD iPop 0 - neighbor.PopData.getD iPop 0| /
        totalMassPop > threshold)

/-- `totalMass` computed at the start of each `MutateGrid` pass:
`Σ_cells floats.Sum(c.Cf) * c.Volume`. -/
def totalMassOf (cells : List CellData) : ℚ :=
  (cells.map fun c => c.Cf.sum * c.Volume).sum

/-- `totalPopulation` computed at the start of each `MutateGrid` pass:
population is only tracked at ground level (`c.Layer == 0`). -/
def totalPopulationOf (iPop : ℕ) (cells : List CellData) : ℚ :=
  (cells.map fun c => if c.Layer = 0 then c.PopData.getD iPop 0 else 0).sum

/-! ## Cell geometry from the nest-index path (`cellGeometry`)

`VarGridConfig.cellGeometry` walks the nest-index path with accumulators
`xResFac`, `yResFac` (starting at 1), multiplying in `Xnests[i]`
(resp. `Ynests[i]`) for every path position `i > 0`, and accumulating
`l += index[i].x * Dx / xResFac`, `b += index[i].y * Dy / yResFac`.
The footprint is the rectangle `[l, l + Dx/xResFac] × [b, b + Dy/yResFac]`.
The loop counter and slice indexing are embedded by structural recursion
on the path carrying the position counter; the Go slice access
`config.Xnests[i]` (which panics out of range) becomes `getD i 1`,
guarded in the theorems by requiring the path not to be longer than the
nest lists. -/

/-- The configuration fields read by `cellGeometry`. -/
structure VarGridConfig where
  VariableGridXo : ℚ
  VariableGridYo : ℚ
  VariableGridDx : ℚ
  VariableGridDy : ℚ
  Xnests : List ℤ
  Ynests : List ℤ
  deriving Repr, DecidableEq

/-- The loop of `cellGeometry` over the nest-index path: `i` is the loop
counter, `xResFac`/`yResFac` the accumulated resolution factors, `l`/`b`
the accumulated lower-left corner. Returns `(l, b, r, u)`. -/
def geomLoop (config : VarGridConfig) :
    ℕ → ℚ → ℚ → ℚ → ℚ → List (ℤ × ℤ) → ℚ × ℚ × ℚ × ℚ
  | _, xResFac, yResFac, l, b, [] =>
      (l, b, l + config.VariableGridDx / xResFac,
        b + config.VariableGridDy / yResFac)
  | i, xResFac, yResFac, l, b, ii :: rest =>
      let xf := if 0 < i then xResFac * ((config.Xnests.getD i 1 : ℤ) : ℚ)
                else xResFac
      let yf := if 0 < i then yResFac * ((config.Ynests.getD i 1 : ℤ) : ℚ)
                else yResFac
      geomLoop config (i + 1) xf yf
        (l + (ii.1 : ℚ) * config.VariableGridDx / xf)
        (b + (ii.2 : ℚ) * config.VariableGridDy / yf) rest

/-- `cellGeometry` reduced to the corner coordinates `(l, b, r, u)` of
the returned axis-aligned rectangle (the Go function returns the closed
counter-clockwise polygon `{(l,b),(r,b),(r,u),(l,u),(l,b)}`). -/
def cellGeometry (config : VarGridConfig) (index : List (ℤ × ℤ)) :
    ℚ × ℚ × ℚ × ℚ :=
  geomLoop config 0 1 1 config.VariableGridXo config.VariableGridYo index

/-- Product of the nesting factors `ns[j]` for `1 ≤ j ≤ i` (the split
factors strictly after the outer-grid entry `ns[0]`, up to and including
path position `i`). -/
def nestDiv (ns : List ℤ) (i : ℕ) : ℚ :=
  ∏ j ∈ Finset.Ico 1 (i + 1), ((ns.getD j 1 : ℤ) : ℚ)

/-- Product of the nesting factors `ns[j]` for `0 ≤ j ≤ i`, as used by
the claimed footprint formula, whose product over `j ≤ i` includes the
level-0 entry `ns[0]` (the outer-grid cell count). -/
def nestDivFromZero (ns : List ℤ) (i : ℕ) : ℚ :=
  ∏ j ∈ Finset.range (i + 1), ((ns.getD j 1 : ℤ) : ℚ)

/-- The claimed lower-left x coordinate, following the spec sentence
word for word: `x_left = x0 + Σᵢ indexᵢ.x · Δx / Πⱼ≤ᵢ Xnestsⱼ` with the
product running over all `j ≤ i` including `j = 0`. -/
def claimedXleft (config : VarGridConfig) (index : List (ℤ × ℤ)) : ℚ :=
  config.VariableGridXo +
    ∑ i ∈ Finset.range index.length,
      (((index.getD i (0, 0)).1 : ℤ) : ℚ) * config.VariableGridDx /
        nestDivFromZero config.Xnests i

/-- The corrected lower-left x coordinate: the divisor at path position
`i` is the product of the split factors `Xnests[j]` for `1 ≤ j ≤ i`;
the outer-grid entry `Xnests[0]` is not a divisor. -/
def sumXleft (config : VarGridConfig) (index : List (ℤ × ℤ)) : ℚ :=
  config.VariableGridXo +
    ∑ i ∈ Finset.range index.length,
      (((index.getD i (0, 0)).1 : ℤ) : ℚ) * config.VariableGridDx /
        nestDiv config.Xnests i

/-- The corrected lower-left y coordinate, analogous to `sumXleft`. -/
def sumYleft (config : VarGridConfig) (index : List (ℤ × ℤ)) : ℚ :=
  config.VariableGridYo +
    ∑ i ∈ Finset.range index.length,
      (((index.getD i (0, 0)).2 : ℤ) : ℚ) * config.VariableGridDy /
        nestDiv config.Ynests i

/-! ## ACM2 convection mass-balance check (`StabilityMixingChemistry`)

The preprocessor checks, for one grid column and every layer triple
`k < nz - 2`, that
`val := M2u(k) - M2d(k) + M2d(k+1) * ((z(k+2)-z(k+1))/(z(k+1)-z(k)))`
satisfies `|val / M2u(k)| ≤ 1e-8`, and panics at the first offending
triple. A column is embedded as functions `ℕ → ℚ` for `M2u`, `M2d` and
the layer heights `z`; the check becomes a decidable scan over
`k < nz - 2`. -/

/-- The ACM2 imbalance `val` at layer triple `k`:
`M2u(k) - M2d(k) + M2d(k+1) * Δzratio` with
`Δzratio = (z(k+2)-z(k+1)) / (z(k+1)-z(k))`. -/
def acm2Val (M2u M2d z : ℕ → ℚ) (k : ℕ) : ℚ :=
  let Δzratio := (z (k + 2) - z (k + 1)) / (z (k + 1) - z k)
  M2u k - M2d k + M2d (k + 1) * Δzratio

/-- Whether the mass-balance check over a column of `nz` layers panics:
some `k < nz - 2` has `|val / M2u(k)| > 1e-8`. (The Go code panics at
the first such `k`, printing `k`, `val`, `M2u(k)`, `M2d(k)`, `M2d(k+1)`;
the program fails fatally iff some `k` trips the test.) -/
def acm2CheckPanics (M2u M2d z : ℕ → ℚ) (nz : ℕ) : Bool :=
  (List.range (nz - 2)).any fun k =>
    decide (|acm2Val M2u M2d z k / M2u k| > 1 / 100000000)

/-! ## Input data version gate (`LoadCTMData`)

`LoadCTMData` reads the `data_version` attribute from the file header
and fails before reading any variable data when it differs from
`InMAPDataVersion`. The external netcdf reading is abstracted: the
header contributes the `data_version` string, and the remainder of the
load (reading every variable) is a parameter that either fails with an
error string or produces the loaded data. -/

/-- `InMAPDataVersion`: the version of the InMAP data required by this
version of the software. -/
def InMAPDataVersion : String := "1.2.0"

/-- The version-gate structure of `LoadCTMData`: given the file's
`data_version` attribute and the outcome `readVars` of reading the
variables (an error string or the loaded data), return the error or the
data that `LoadCTMData` returns. The version check happens before any
variable is read. -/
def loadCTMData (dataVersion : String) (readVars : Except String α) :
    Except String α :=
  if dataVersion ≠ InMAPDataVersion then
    .error ("inmap.LoadCTMData: data version " ++ dataVersion ++
      " is incompatible with the required version " ++ InMAPDataVersion)
  else
    readVars

/-! ## Cell ordering (`sortCells`) and layer scans (`toArray`,
`GetGeometry`)

`cellsSorter.Less(i, j)` compares by layer, then footprint-centroid x,
then centroid y, and panics when all three are equal. The comparison is
embedded as a function to `Option Bool`, `none` standing for the panic.
`toArray` and `GetGeometry` scan the sorted cell list and return early
as soon as a cell's layer exceeds the requested layer; `toArray`'s
reflection-based `getValue` is abstracted as a function argument. -/

/-- The cell fields read by `cellsSorter.Less`, `toArray` and
`GetGeometry`: the layer index and the footprint centroid. -/
structure SCell where
  Layer : ℤ
  centroidX : ℚ
  centroidY : ℚ
  deriving Repr, DecidableEq

/-- `cellsSorter.Less(i, j)`: layer, then centroid x, then centroid y;
`none` embeds the panic on concentric or identical cells. -/
def cellsLess (ci cj : SCell) : Option Bool :=
  if ci.Layer ≠ cj.Layer then some (decide (ci.Layer < cj.Layer))
  else if ci.centroidX ≠ cj.centroidX then
    some (decide (ci.centroidX < cj.centroidX))
  else if ci.centroidY ≠ cj.centroidY then
    some (decide (ci.centroidY < cj.centroidY))
  else none

/-- The strict lexicographic (layer, centroid x, centroid y) order that
`sortCells` sorts by. -/
def cellsLexLt (ci cj : SCell) : Prop :=
  ci.Layer < cj.Layer ∨
    (ci.Layer = cj.Layer ∧
      (ci.centroidX < cj.centroidX ∨
        (ci.centroidX = cj.centroidX ∧ ci.centroidY < cj.centroidY)))

instance (ci cj : SCell) : Decidable (cellsLexLt ci cj) := by
  unfold cellsLexLt; infer_instance

/-- The loop of `InMAP.toArray` for variable accessor `val` and
requested layer `layer`, with accumulator `o`: it returns early (with
the data gathered so far) at the first cell whose layer exceeds a
non-negative requested layer, and otherwise appends the cell's value
when the layer matches (or when all layers are requested,
`layer < 0`). -/
def toArrayLoop (layer : ℤ) (val : SCell → ℚ) : List SCell → List ℚ → List ℚ
  | [], o => o
  | c :: rest, o =>
      if 0 ≤ layer ∧ layer < c.Layer then o
      else toArrayLoop layer val rest
        (if layer < 0 ∨ c.Layer = layer then o ++ [val c] else o)

/-- `InMAP.toArray` for variable accessor `val`: scan the cell list with
an empty accumulator. -/
def toArray (layer : ℤ) (val : SCell → ℚ) (cells : List SCell) : List ℚ :=
  toArrayLoop layer val cells []

/-! ## Layer-count invariant of `AddCells`

`InMAP.AddCells` loops over the given cells; for each cell `c` it raises
`d.nlayers` to `c.Layer + 1` whenever `c.Layer > d.nlayers - 1`, appends
`c` to `d.cells`, inserts `c` into the spatial index, and calls
`d.setNeighbors(c, 1e-10)`. The spatial index is embedded as the list of
inserted cells; `setNeighbors` (whose body is outside the sources at
hand) is modelled from the spec as marking the cell as having had its
neighbor set computed. -/

/-- The cell field read by `AddCells`. -/
structure GCell where
  Layer : ℤ
  deriving Repr, DecidableEq

/-- The `InMAP` grid state touched by `AddCells`: the cell list, the
layer count, the spatial index (as the list of cells inserted into it),
and — modelled from the spec: `setNeighbors` computes the per-face
neighbor lists of a newly inserted cell, which we record by listing the
cells it has been run on. -/
structure Grid where
  cells : List GCell
  nlayers : ℤ
  index : List GCell
  neighborsAssigned : List GCell
  deriving Repr, DecidableEq

/-- One iteration of the `AddCells` loop for cell `c`. -/
def addCell (d : Grid) (c : GCell) : Grid :=
  { cells := d.cells ++ [c]
    nlayers := if c.Layer > d.nlayers - 1 then c.Layer + 1 else d.nlayers
    index := d.index ++ [c]
    neighborsAssigned := d.neighborsAssigned ++ [c] }

/-- `InMAP.AddCells(cells...)`. -/
def AddCells (d : Grid) (cs : List GCell) : Grid :=
  cs.foldl addCell d

/-! ## Concrete data used by the witness theorems -/

/-- A concrete cell for the emissions witness. -/
def emisTestCell : AIMcell :=
  { initialConc := [1, 2], finalConc := [3, 4], emisFlux := [5, 6]
    Dx := 7, Dy := 8, Dz := 9, Volume := 504 }

/-- A concrete domain for the emissions witness. -/
def emisTestData : AIMdata := { Data := [emisTestCell], Dt := 2 }

/-- A concrete ground-level grid cell acting as a western neighbor. -/
def nbA : CellData := { Cf := [2, 0], Volume := 1, PopData := [10], Layer := 0 }

/-- A concrete ground-level cell with `nbA` as its only horizontal
neighbor. -/
def cellB : PCCell :=
  { Cf := [0, 0], Volume := 1, PopData := [0], Layer := 0
    west := [nbA], east := [], north := [], south := [] }

/-- The two-cell grid backing the mutator witnesses. -/
def mutTestGrid : List CellData := [nbA, cellB.toCellData]

/-- A concrete grid-state for the `AddCells` witness. -/
def addTestGrid : Grid :=
  { cells := [⟨0⟩], nlayers := 1, index := [⟨0⟩], neighborsAssigned := [⟨0⟩] }

/-- Concrete upward ACM2 mixing coefficients for the witness column. -/
def m2uTest : ℕ → ℚ := fun _ => 1

/-- Concrete downward ACM2 mixing coefficients satisfying the balance
identity on the witness column. -/
def m2dTest : ℕ → ℚ := fun k => if k = 0 then 2 else if k = 1 then 1 else 0

/-- Concrete layer heights for the witness column. -/
def zTest : ℕ → ℚ := fun k => (k : ℚ)

/-- A concrete layer-0 cell for the sorting witness. -/
def sortCellA : SCell := { Layer := 0, centroidX := 0, centroidY := 0 }

/-- A concrete layer-1 cell for the sorting witness. -/
def sortCellB : SCell := { Layer := 1, centroidX := 1, centroidY := 0 }

end InMAP

namespace InMAP

/-- C5: the emissions-add operator maps every cell to
`Cf[p] ← Cf[p] + EmisFlux[p]·Δt` followed by `Ci[p] ← Cf[p]`; afterwards
`Ci = Cf` for every pollutant of the cell, and the remaining fields are
unchanged. (The concentration slices of a cell all have one entry per
pollutant, hence the equal-length hypotheses.) -/
theorem addEmissionsFlux_correct (d : AIMdata) (c : AIMcell)
    (hf : c.finalConc.length = c.initialConc.length)
    (he : c.emisFlux.length = c.initialConc.length) :
    (addEmissionsFlux d).Data = d.Data.map (addEmissionsFluxCell d.Dt) ∧
    (addEmissionsFluxCell d.Dt c).initialConc =
      (addEmissionsFluxCell d.Dt c).finalConc ∧
    (∀ i, i < c.initialConc.length →
      (addEmissionsFluxCell d.Dt c).finalConc.getD i 0 =
        c.finalConc.getD i 0 + c.emisFlux.getD i 0 * d.Dt) ∧
    (addEmissionsFluxCell d.Dt c).emisFlux = c.emisFlux ∧
    (addEmissionsFluxCell d.Dt c).Dx = c.Dx ∧
    (addEmissionsFluxCell d.Dt c).Dy = c.Dy ∧
    (addEmissionsFluxCell d.Dt c).Dz = c.Dz ∧
    (addEmissionsFluxCell d.Dt c).Volume = c.Volume := by
  refine ⟨rfl, rfl, ?_, rfl, rfl, rfl, rfl, rfl⟩
  intro i hi
  have hlen : (List.zipWith (fun f e => f + e * d.Dt) c.finalConc
      c.emisFlux).length = c.initialConc.length := by
    rw [List.length_zipWith, hf, he, min_self]
  have hiz : i < (List.zipWith (fun f e => f + e * d.Dt) c.finalConc
      c.emisFlux).length := by omega
  have hif : i < c.finalConc.length := by omega
  have hie : i < c.emisFlux.length := by omega
  show (List.zipWith (fun f e => f + e * d.Dt) c.finalConc
      c.emisFlux).getD i 0 = _
  rw [List.getD_eq_getElem _ _ hiz, List.getElem_zipWith,
    List.getD_eq_getElem _ _ hif, List.getD_eq_getElem _ _ hie]

/-- Witness for C5 at a concrete one-cell domain with `Δt = 2`. -/
theorem addEmissionsFlux_correct_witness :
    (emisTestCell.finalConc.length = emisTestCell.initialConc.length ∧
      emisTestCell.emisFlux.length = emisTestCell.initialConc.length) ∧
    ((addEmissionsFlux emisTestData).Data =
        emisTestData.Data.map (addEmissionsFluxCell emisTestData.Dt) ∧
      (addEmissionsFluxCell emisTestData.Dt emisTestCell).initialConc =
        (addEmissionsFluxCell emisTestData.Dt emisTestCell).finalConc ∧
      (∀ i, i < emisTestCell.initialConc.length →
        (addEmissionsFluxCell emisTestData.Dt
            emisTestCell).finalConc.getD i 0 =
          emisTestCell.finalConc.getD i 0 +
            emisTestCell.emisFlux.getD i 0 * emisTestData.Dt) ∧
      (addEmissionsFluxCell emisTestData.Dt emisTestCell).emisFlux =
        emisTestCell.emisFlux ∧
      (addEmissionsFluxCell emisTestData.Dt emisTestCell).Dx =
        emisTestCell.Dx ∧
      (addEmissionsFluxCell emisTestData.Dt emisTestCell).Dy =
        emisTestCell.Dy ∧
      (addEmissionsFluxCell emisTestData.Dt emisTestCell).Dz =
        emisTestCell.Dz ∧
      (addEmissionsFluxCell emisTestData.Dt emisTestCell).Volume =
        emisTestCell.Volume) :=
  ⟨⟨by decide, by decide⟩,
    addEmissionsFlux_correct emisTestData emisTestCell (by decide) (by decide)⟩

/-- C2: with the domain-wide totals computed at the start of a
`MutateGrid` pass (both nonzero, so that the ratio is defined), the
predicate returned by `PopConcMutator` is true for a cell exactly when
some horizontal neighbor `n` satisfies
`Σₚ|Cf_cell[p] − Cf_n[p]| · (V_cell+V_n) · |Pop_cell − Pop_n| /
(totalMass · totalPopulation) > threshold`. -/
theorem popConcMutator_spec (threshold : ℚ) (iPop : ℕ) (cell : PCCell)
    (cells : List CellData) (hM : totalMassOf cells ≠ 0)
    (hP : totalPopulationOf iPop cells ≠ 0) :
    popConcMutator threshold iPop cell (totalMassOf cells)
        (totalPopulationOf iPop cells) = true ↔
      ∃ n ∈ cell.west ++ cell.east ++ cell.north ++ cell.south,
        sumAbsConcDiff cell.toCellData n * (cell.Volume + n.Volume) *
            |cell.PopData.getD iPop 0 - n.PopData.getD iPop 0| /
            (totalMassOf cells * totalPopulationOf iPop cells) >
          threshold := by
  unfold popConcMutator
  rw [if_neg (by push_neg; exact ⟨hM, hP⟩)]
  simp only [List.any_eq_true, List.mem_append, decide_eq_true_eq]

/-- Witness for C2 on a two-cell ground-level grid where the west
neighbor trips the threshold. -/
theorem popConcMutator_spec_witness :
    (totalMassOf mutTestGrid ≠ 0 ∧ totalPopulationOf 0 mutTestGrid ≠ 0) ∧
    (popConcMutator 1 0 cellB (totalMassOf mutTestGrid)
        (totalPopulationOf 0 mutTestGrid) = true ↔
      ∃ n ∈ cellB.west ++ cellB.east ++ cellB.north ++ cellB.south,
        sumAbsConcDiff cellB.toCellData n * (cellB.Volume + n.Volume) *
            |cellB.PopData.getD 0 0 - n.PopData.getD 0 0| /
            (totalMassOf mutTestGrid * totalPopulationOf 0 mutTestGrid) >
          1) :=
  ⟨⟨by norm_num [totalMassOf, mutTestGrid, nbA, cellB],
      by norm_num [totalPopulationOf, mutTestGrid, nbA, cellB]⟩,
    popConcMutator_spec 1 0 cellB mutTestGrid
      (by norm_num [totalMassOf, mutTestGrid, nbA, cellB])
      (by norm_num [totalPopulationOf, mutTestGrid, nbA, cellB])⟩

/-- C8: the `PopConcMutator` predicate returns `false` whenever the
supplied `totalMass` or `totalPopulation` is zero — the guard fires
before the ratio (and hence the division) is ever evaluated. -/
theorem popConcMutator_zero_guard (threshold : ℚ) (iPop : ℕ)
    (cell : PCCell) (totalMass totalPopulation : ℚ)
    (h : totalMass = 0 ∨ totalPopulation = 0) :
    popConcMutator threshold iPop cell totalMass totalPopulation = false := by
  unfold popConcMutator
  rw [if_pos h]

/-- Witness for C8: zero total mass forces a `false` answer even though
the neighbor would trip the threshold with nonzero totals. -/
theorem popConcMutator_zero_guard_witness :
    ((0 : ℚ) = 0 ∨ (5 : ℚ) = 0) ∧
    popConcMutator 1 0 cellB 0 5 = false :=
  ⟨Or.inl rfl, popConcMutator_zero_guard 1 0 cellB 0 5 (Or.inl rfl)⟩

/-- C6: `LoadCTMData` fails at load when the file's `data_version`
attribute differs from `InMAPDataVersion`, returning an error (and no
data) whose message contains both the offending and the required
version; when the versions agree it simply returns the outcome of
reading the variables, so a successful read yields no error. -/
theorem loadCTMData_version_gate {α : Type} (dataVersion : String)
    (readVars : Except String α) :
    (dataVersion ≠ InMAPDataVersion →
      loadCTMData dataVersion readVars =
        .error ("inmap.LoadCTMData: data version " ++ dataVersion ++
          " is incompatible with the required version " ++
          InMAPDataVersion) ∧
      (∃ s t u, ("inmap.LoadCTMData: data version " ++ dataVersion ++
          " is incompatible with the required version " ++
          InMAPDataVersion) = s ++ dataVersion ++ t ++
            InMAPDataVersion ++ u) ∧
      ∀ v, loadCTMData dataVersion readVars ≠ .ok v) ∧
    (dataVersion = InMAPDataVersion →
      loadCTMData dataVersion readVars = readVars) := by
  constructor
  · intro h
    rw [loadCTMData, if_pos h]
    refine ⟨rfl, ⟨"inmap.LoadCTMData: data version ",
      " is incompatible with the required version ", "", by simp⟩, ?_⟩
    intro v hv
    cases hv
  · intro h
    rw [loadCTMData, if_neg (by simp [h])]

/-- Witness for C6: version `"1.1.0"` is rejected with a message naming
both versions, while the required version is accepted. -/
theorem loadCTMData_version_gate_witness :
    ("1.1.0" ≠ InMAPDataVersion) ∧
    (loadCTMData "1.1.0" (Except.ok (7 : ℕ)) =
        .error ("inmap.LoadCTMData: data version " ++ "1.1.0" ++
          " is incompatible with the required version " ++
          InMAPDataVersion) ∧
      (∃ s t u, ("inmap.LoadCTMData: data version " ++ "1.1.0" ++
          " is incompatible with the required version " ++
          InMAPDataVersion) = s ++ "1.1.0" ++ t ++ InMAPDataVersion ++ u) ∧
      ∀ v, loadCTMData "1.1.0" (Except.ok (7 : ℕ)) ≠ .ok v) ∧
    loadCTMData InMAPDataVersion (Except.ok (7 : ℕ)) = .ok 7 :=
  ⟨by decide,
    (loadCTMData_version_gate "1.1.0" (Except.ok (7 : ℕ))).1 (by decide),
    (loadCTMData_version_gate InMAPDataVersion (Except.ok (7 : ℕ))).2 rfl⟩

/-- C10: `AddCells` preserves the layer-count invariant — if every cell
already in the grid has `Layer < nlayers`, then after
`AddCells(cells...)` every cell (old and new) still has
`Layer < nlayers` (raising `nlayers` to `Layer + 1` where needed, so
`nlayers` never decreases), and the added cells have been appended to
the cell list, inserted into the spatial index, and had their neighbors
assigned. -/
theorem AddCells_spec (d : Grid) (cs : List GCell)
    (hinv : ∀ c ∈ d.cells, c.Layer < d.nlayers) :
    (∀ c ∈ (AddCells d cs).cells, c.Layer < (AddCells d cs).nlayers) ∧
    d.nlayers ≤ (AddCells d cs).nlayers ∧
    (AddCells d cs).cells = d.cells ++ cs ∧
    (AddCells d cs).index = d.index ++ cs ∧
    (AddCells d cs).neighborsAssigned = d.neighborsAssigned ++ cs := by
  induction cs generalizing d with
  | nil => exact ⟨hinv, le_refl _, by simp [AddCells], by simp [AddCells],
      by simp [AddCells]⟩
  | cons c cs ih =>
    have hstep : ∀ x ∈ (addCell d c).cells, x.Layer < (addCell d c).nlayers := by
      intro x hx
      rcases List.mem_append.mp hx with hx | hx
      · have := hinv x hx
        simp only [addCell]
        split <;> omega
      · have hx' : x = c := by simpa using hx
        subst hx'
        simp only [addCell]
        split <;> omega
    have hmono : d.nlayers ≤ (addCell d c).nlayers := by
      simp only [addCell]
      split <;> omega
    have hrest := ih (addCell d c) hstep
    have hfold : AddCells d (c :: cs) = AddCells (addCell d c) cs := rfl
    refine ⟨by rw [hfold]; exact hrest.1, ?_, ?_, ?_, ?_⟩
    · rw [hfold]; exact le_trans hmono hrest.2.1
    · rw [hfold, hrest.2.2.1]; simp [addCell]
    · rw [hfold, hrest.2.2.2.1]; simp [addCell]
    · rw [hfold, hrest.2.2.2.2]; simp [addCell]

/-- Witness for C10: adding a layer-2 and a layer-1 cell to a one-layer
grid. -/
theorem AddCells_spec_witness :
    (∀ c ∈ addTestGrid.cells, c.Layer < addTestGrid.nlayers) ∧
    ((∀ c ∈ (AddCells addTestGrid [⟨2⟩, ⟨1⟩]).cells,
        c.Layer < (AddCells addTestGrid [⟨2⟩, ⟨1⟩]).nlayers) ∧
      addTestGrid.nlayers ≤ (AddCells addTestGrid [⟨2⟩, ⟨1⟩]).nlayers ∧
      (AddCells addTestGrid [⟨2⟩, ⟨1⟩]).cells =
        addTestGrid.cells ++ [⟨2⟩, ⟨1⟩] ∧
      (AddCells addTestGrid [⟨2⟩, ⟨1⟩]).index =
        addTestGrid.index ++ [⟨2⟩, ⟨1⟩] ∧
      (AddCells addTestGrid [⟨2⟩, ⟨1⟩]).neighborsAssigned =
        addTestGrid.neighborsAssigned ++ [⟨2⟩, ⟨1⟩]) :=
  ⟨by decide, AddCells_spec addTestGrid [⟨2⟩, ⟨1⟩] (by decide)⟩

/-- C4: on a column whose checked layer triples are in-PBL
(`M2u(k) > 0`), the preprocessor's mass-balance check panics exactly
when some triple has relative ACM2 imbalance
`|M2u(k) − M2d(k) + M2d(k+1)·((z(k+2)−z(k+1))/(z(k+1)−z(k)))| / M2u(k)`
above `1e-8`; consequently a column that passes without failure
satisfies `M2u = M2d(k) − M2d(k+1)·Δzratio` to `1e-8` relative on every
checked triple. -/
theorem acm2Check_spec (M2u M2d z : ℕ → ℚ) (nz : ℕ)
    (h : ∀ k, k < nz - 2 → 0 < M2u k) :
    (acm2CheckPanics M2u M2d z nz = true ↔
      ∃ k, k < nz - 2 ∧
        |acm2Val M2u M2d z k| / M2u k > 1 / 100000000) ∧
    (acm2CheckPanics M2u M2d z nz = false →
      ∀ k, k < nz - 2 →
        |M2u k - (M2d k - M2d (k + 1) *
            ((z (k + 2) - z (k + 1)) / (z (k + 1) - z k)))| / M2u k ≤
          1 / 100000000) := by
  have key : ∀ k, k < nz - 2 →
      |acm2Val M2u M2d z k / M2u k| = |acm2Val M2u M2d z k| / M2u k := by
    intro k hk
    rw [abs_div, abs_of_pos (h k hk)]
  have main : acm2CheckPanics M2u M2d z nz = true ↔
      ∃ k, k < nz - 2 ∧
        |acm2Val M2u M2d z k| / M2u k > 1 / 100000000 := by
    unfold acm2CheckPanics
    simp only [List.any_eq_true, List.mem_range, decide_eq_true_eq]
    constructor
    · rintro ⟨k, hk, hgt⟩
      exact ⟨k, hk, by rw [← key k hk]; exact hgt⟩
    · rintro ⟨k, hk, hgt⟩
      exact ⟨k, hk, by rw [key k hk]; exact hgt⟩
  refine ⟨main, ?_⟩
  intro hfalse k hk
  have hval : M2u k - (M2d k - M2d (k + 1) *
      ((z (k + 2) - z (k + 1)) / (z (k + 1) - z k))) =
      acm2Val M2u M2d z k := by
    show _ = M2u k - M2d k + M2d (k + 1) * _
    ring
  rw [hval]
  by_contra hgt
  push_neg at hgt
  have := main.mpr ⟨k, hk, hgt⟩
  rw [hfalse] at this
  exact Bool.false_ne_true this

/-- Witness for C4: a three-layer column in balance, so the check does
not panic and the identity holds on its (single) triple. -/
theorem acm2Check_spec_witness :
    (∀ k, k < 3 - 2 → 0 < m2uTest k) ∧
    ((acm2CheckPanics m2uTest m2dTest zTest 3 = true ↔
      ∃ k, k < 3 - 2 ∧
        |acm2Val m2uTest m2dTest zTest k| / m2uTest k > 1 / 100000000) ∧
    (acm2CheckPanics m2uTest m2dTest zTest 3 = false →
      ∀ k, k < 3 - 2 →
        |m2uTest k - (m2dTest k - m2dTest (k + 1) *
            ((zTest (k + 2) - zTest (k + 1)) /
              (zTest (k + 1) - zTest k)))| / m2uTest k ≤
          1 / 100000000)) :=
  ⟨fun k _ => by norm_num [m2uTest],
    acm2Check_spec m2uTest m2dTest zTest 3 (fun k _ => by norm_num [m2uTest])⟩

/-- The total (layer, centroid x, centroid y) order: failure of
`cellsLexLt b a` forces `a.Layer ≤ b.Layer`. -/
theorem not_lexLt_layer_le (a b : SCell) (h : ¬ cellsLexLt b a) :
    a.Layer ≤ b.Layer := by
  by_contra h'
  push_neg at h'
  exact h (Or.inl h')

/-- The `toArray` scan over a list sorted by the `sortCells` order, with
any accumulator, gathers exactly the requested layer's values. -/
theorem toArrayLoop_sorted_eq (layer : ℤ) (val : SCell → ℚ)
    (hl : 0 ≤ layer) :
    ∀ cells : List SCell, cells.Pairwise (fun a b => ¬ cellsLexLt b a) →
      ∀ o, toArrayLoop layer val cells o =
        o ++ (cells.filter fun c => decide (c.Layer = layer)).map val := by
  intro cells
  induction cells with
  | nil => intro _ o; simp [toArrayLoop]
  | cons c rest ih =>
    intro hpw o
    have hhead := (List.pairwise_cons.mp hpw).1
    have htail := (List.pairwise_cons.mp hpw).2
    rw [toArrayLoop]
    by_cases h : 0 ≤ layer ∧ layer < c.Layer
    · rw [if_pos h]
      have hnil : ((c :: rest).filter fun x => decide (x.Layer = layer)) = [] := by
        rw [List.filter_eq_nil_iff]
        intro b hb
        rcases List.mem_cons.mp hb with hb | hb
        · subst hb; simpa using by omega
        · have := not_lexLt_layer_le c b (hhead b hb)
          simpa using by omega
      rw [hnil]
      simp
    · rw [if_neg h]
      have hcl : c.Layer ≤ layer := by omega
      rw [ih htail]
      by_cases h2 : layer < 0 ∨ c.Layer = layer
      · have hceq : c.Layer = layer := by omega
        rw [if_pos h2, List.filter_cons_of_pos (by simpa using hceq)]
        simp
      · have hcne : ¬ c.Layer = layer := by omega
        rw [if_neg h2, List.filter_cons_of_neg (by simpa using hcne)]

/-- C9: `sortCells` compares cells strictly by layer, then centroid x,
then centroid y (`cellsLess _ _ = some true` is exactly the
lexicographic strict order), the comparison panics exactly on distinct
compared cells with equal layer and identical centroids, and a list
sorted by this order has nondecreasing layers, which makes the
early-stopping scans of `toArray` (and `GetGeometry`) return exactly the
requested layer's data. -/
theorem sortCells_spec :
    (∀ ci cj : SCell, cellsLess ci cj = none ↔
      ci.Layer = cj.Layer ∧ ci.centroidX = cj.centroidX ∧
        ci.centroidY = cj.centroidY) ∧
    (∀ ci cj : SCell, cellsLess ci cj = some true ↔ cellsLexLt ci cj) ∧
    (∀ cells : List SCell, cells.Pairwise (fun a b => ¬ cellsLexLt b a) →
      cells.Pairwise (fun a b => a.Layer ≤ b.Layer) ∧
      ∀ (layer : ℤ) (val : SCell → ℚ), 0 ≤ layer →
        toArray layer val cells =
          (cells.filter fun c => decide (c.Layer = layer)).map val) := by
  refine ⟨?_, ?_, ?_⟩
  · intro ci cj
    unfold cellsLess
    split_ifs with h1 h2 h3 <;> simp_all
  · intro ci cj
    unfold cellsLess cellsLexLt
    split_ifs with h1 h2 h3 <;> simp_all
  · intro cells hpw
    refine ⟨hpw.imp ?_, ?_⟩
    · intro a b h
      exact not_lexLt_layer_le a b h
    · intro layer val hl
      unfold toArray
      rw [toArrayLoop_sorted_eq layer val hl cells hpw []]
      simp

/-- Witness for C9 on a sorted two-cell list: layers are nondecreasing
and the layer-0 scan returns exactly the layer-0 value. -/
theorem sortCells_spec_witness :
    ([sortCellA, sortCellB].Pairwise fun a b => ¬ cellsLexLt b a) ∧
    ([sortCellA, sortCellB].Pairwise fun a b => a.Layer ≤ b.Layer) ∧
    toArray 0 SCell.centroidX [sortCellA, sortCellB] =
      (([sortCellA, sortCellB]).filter fun c =>
        decide (c.Layer = 0)).map SCell.centroidX := by
  have hpw : [sortCellA, sortCellB].Pairwise fun a b => ¬ cellsLexLt b a := by
    refine List.Pairwise.cons ?_ (by simp)
    intro b hb
    have hb' : b = sortCellB := by simpa using hb
    subst hb'
    unfold cellsLexLt sortCellA sortCellB
    norm_num
  have hmain := sortCells_spec.2.2 [sortCellA, sortCellB] hpw
  exact ⟨hpw, hmain.1, hmain.2 0 SCell.centroidX le_rfl⟩

/-- Splitting the bottom element off a product over `Finset.Ico`. -/
theorem prod_Ico_bot (g : ℕ → ℚ) (i n : ℕ) :
    ∏ j ∈ Finset.Ico i (i + n + 1), g j =
      g i * ∏ j ∈ Finset.Ico (i + 1) (i + n + 1), g j :=
  Finset.prod_eq_prod_Ico_succ_bot (by omega) g

/-- One unfolding step of the `cellGeometry` coordinate sum: peeling off
the first path position and absorbing `g i` into the resolution
factor. -/
theorem sum_step (f g : ℕ → ℚ) (D xf : ℚ) (i n : ℕ) :
    ∑ t ∈ Finset.range (n + 1),
        f t * D / (xf * ∏ j ∈ Finset.Ico i (i + t + 1), g j) =
      (∑ t ∈ Finset.range n,
          f (t + 1) * D /
            ((xf * g i) * ∏ j ∈ Finset.Ico (i + 1) (i + 1 + t + 1), g j)) +
        f 0 * D / (xf * g i) := by
  rw [Finset.sum_range_succ']
  congr 1
  · apply Finset.sum_congr rfl
    intro t _
    rw [prod_Ico_bot g i (t + 1),
      show i + (t + 1) + 1 = i + 1 + t + 1 from by omega, ← mul_assoc]
  · rw [prod_Ico_bot g i 0]
    simp

/-- Closed form of the `cellGeometry` loop from any position `i ≥ 1`:
the lower-left corner accumulates
`Σₜ indexₜ · Δ / (resFac · Πⱼ nests[j])` with `j` running over the
positions `i ≤ j ≤ i + t`, and the upper-right corner adds one full
cell width at the final resolution. -/
theorem geomLoop_closed (config : VarGridConfig) :
    ∀ (idx : List (ℤ × ℤ)) (i : ℕ) (xf yf l b : ℚ), 1 ≤ i →
      geomLoop config i xf yf l b idx =
        (l + ∑ t ∈ Finset.range idx.length,
            (((idx.getD t (0, 0)).1 : ℤ) : ℚ) * config.VariableGridDx /
              (xf * ∏ j ∈ Finset.Ico i (i + t + 1),
                ((config.Xnests.getD j 1 : ℤ) : ℚ)),
          b + ∑ t ∈ Finset.range idx.length,
            (((idx.getD t (0, 0)).2 : ℤ) : ℚ) * config.VariableGridDy /
              (yf * ∏ j ∈ Finset.Ico i (i + t + 1),
                ((config.Ynests.getD j 1 : ℤ) : ℚ)),
          (l + ∑ t ∈ Finset.range idx.length,
            (((idx.getD t (0, 0)).1 : ℤ) : ℚ) * config.VariableGridDx /
              (xf * ∏ j ∈ Finset.Ico i (i + t + 1),
                ((config.Xnests.getD j 1 : ℤ) : ℚ))) +
            config.VariableGridDx /
              (xf * ∏ j ∈ Finset.Ico i (i + idx.length),
                ((config.Xnests.getD j 1 : ℤ) : ℚ)),
          (b + ∑ t ∈ Finset.range idx.length,
            (((idx.getD t (0, 0)).2 : ℤ) : ℚ) * config.VariableGridDy /
              (yf * ∏ j ∈ Finset.Ico i (i + t + 1),
                ((config.Ynests.getD j 1 : ℤ) : ℚ))) +
            config.VariableGridDy /
              (yf * ∏ j ∈ Finset.Ico i (i + idx.length),
                ((config.Ynests.getD j 1 : ℤ) : ℚ))) := by
  intro idx
  induction idx with
  | nil =>
    intro i xf yf l b _
    simp [geomLoop]
  | cons ii rest ih =>
    intro i xf yf l b hi
    have hpos : 0 < i := hi
    simp only [geomLoop, hpos, if_true]
    rw [ih (i + 1) (xf * ((config.Xnests.getD i 1 : ℤ) : ℚ))
      (yf * ((config.Ynests.getD i 1 : ℤ) : ℚ))
      (l + (ii.1 : ℚ) * config.VariableGridDx /
        (xf * ((config.Xnests.getD i 1 : ℤ) : ℚ)))
      (b + (ii.2 : ℚ) * config.VariableGridDy /
        (yf * ((config.Ynests.getD i 1 : ℤ) : ℚ)))
      (by omega)]
    simp only [Prod.mk.injEq, List.length_cons]
    have hx := sum_step (fun t => (((ii :: rest).getD t (0, 0)).1 : ℚ))
      (fun j => ((config.Xnests.getD j 1 : ℤ) : ℚ)) config.VariableGridDx
      xf i rest.length
    have hy := sum_step (fun t => (((ii :: rest).getD t (0, 0)).2 : ℚ))
      (fun j => ((config.Ynests.getD j 1 : ℤ) : ℚ)) config.VariableGridDy
      yf i rest.length
    simp only [List.getD_cons_succ, List.getD_cons_zero] at hx hy
    have hpx : ∏ j ∈ Finset.Ico i (i + (rest.length + 1)),
        ((config.Xnests.getD j 1 : ℤ) : ℚ) =
        ((config.Xnests.getD i 1 : ℤ) : ℚ) *
          ∏ j ∈ Finset.Ico (i + 1) (i + 1 + rest.length),
            ((config.Xnests.getD j 1 : ℤ) : ℚ) := by
      rw [show i + (rest.length + 1) = i + rest.length + 1 from by omega,
        prod_Ico_bot,
        show i + rest.length + 1 = i + 1 + rest.length from by omega]
    have hpy : ∏ j ∈ Finset.Ico i (i + (rest.length + 1)),
        ((config.Ynests.getD j 1 : ℤ) : ℚ) =
        ((config.Ynests.getD i 1 : ℤ) : ℚ) *
          ∏ j ∈ Finset.Ico (i + 1) (i + 1 + rest.length),
            ((config.Ynests.getD j 1 : ℤ) : ℚ) := by
      rw [show i + (rest.length + 1) = i + rest.length + 1 from by omega,
        prod_Ico_bot,
        show i + rest.length + 1 = i + 1 + rest.length from by omega]
    refine ⟨?_, ?_, ?_, ?_⟩
    · rw [hx]; ring
    · rw [hy]; ring
    · rw [hx, hpx]; ring
    · rw [hy, hpy]; ring

/-- C3 (amended): for every nest-index path, `cellGeometry` places the
lower-left corner at
`x₀ + Σᵢ indexᵢ.x · Δx / Π₁≤ⱼ≤ᵢ Xnestsⱼ` (the product running over the
split factors at levels `1..i`; the level-0 entry `Xnests[0]` — the
outer-grid cell count — is not a divisor), analogously for y, and the
cell width is `Δx` divided by the product of the split factors along
the path. -/
theorem cellGeometry_formula (config : VarGridConfig)
    (index : List (ℤ × ℤ)) :
    (cellGeometry config index).1 = sumXleft config index ∧
    (cellGeometry config index).2.1 = sumYleft config index ∧
    (cellGeometry config index).2.2.1 = sumXleft config index +
      config.VariableGridDx / nestDiv config.Xnests (index.length - 1) ∧
    (cellGeometry config index).2.2.2 = sumYleft config index +
      config.VariableGridDy / nestDiv config.Ynests (index.length - 1) := by
  cases index with
  | nil =>
    simp [cellGeometry, geomLoop, sumXleft, sumYleft, nestDiv]
  | cons ii rest =>
    have hstep : cellGeometry config (ii :: rest) =
        geomLoop config 1 1 1
          (config.VariableGridXo +
            (ii.1 : ℚ) * config.VariableGridDx / 1)
          (config.VariableGridYo +
            (ii.2 : ℚ) * config.VariableGridDy / 1) rest := by
      unfold cellGeometry
      simp only [geomLoop, Nat.lt_irrefl, if_false]
    rw [hstep, geomLoop_closed config rest 1 1 1 _ _ le_rfl]
    have hXsum : (config.VariableGridXo +
        (ii.1 : ℚ) * config.VariableGridDx / 1) +
        (∑ t ∈ Finset.range rest.length,
          (((rest.getD t (0, 0)).1 : ℤ) : ℚ) * config.VariableGridDx /
            (1 * ∏ j ∈ Finset.Ico 1 (1 + t + 1),
              ((config.Xnests.getD j 1 : ℤ) : ℚ))) =
        sumXleft config (ii :: rest) := by
      unfold sumXleft
      rw [List.length_cons, Finset.sum_range_succ']
      simp only [List.getD_cons_succ, List.getD_cons_zero]
      have h0 : nestDiv config.Xnests 0 = 1 := by simp [nestDiv]
      rw [h0]
      have hc : ∀ t ∈ Finset.range rest.length,
          (((rest.getD t (0, 0)).1 : ℤ) : ℚ) * config.VariableGridDx /
            (1 * ∏ j ∈ Finset.Ico 1 (1 + t + 1),
              ((config.Xnests.getD j 1 : ℤ) : ℚ)) =
          (((rest.getD t (0, 0)).1 : ℤ) : ℚ) * config.VariableGridDx /
            nestDiv config.Xnests (t + 1) := by
        intro t _
        rw [one_mul, show 1 + t + 1 = t + 1 + 1 from by omega]
        rfl
      rw [Finset.sum_congr rfl hc]
      ring
    have hYsum : (config.VariableGridYo +
        (ii.2 : ℚ) * config.VariableGridDy / 1) +
        (∑ t ∈ Finset.range rest.length,
          (((rest.getD t (0, 0)).2 : ℤ) : ℚ) * config.VariableGridDy /
            (1 * ∏ j ∈ Finset.Ico 1 (1 + t + 1),
              ((config.Ynests.getD j 1 : ℤ) : ℚ))) =
        sumYleft config (ii :: rest) := by
      unfold sumYleft
      rw [List.length_cons, Finset.sum_range_succ']
      simp only [List.getD_cons_succ, List.getD_cons_zero]
      have h0 : nestDiv config.Ynests 0 = 1 := by simp [nestDiv]
      rw [h0]
      have hc : ∀ t ∈ Finset.range rest.length,
          (((rest.getD t (0, 0)).2 : ℤ) : ℚ) * config.VariableGridDy /
            (1 * ∏ j ∈ Finset.Ico 1 (1 + t + 1),
              ((config.Ynests.getD j 1 : ℤ) : ℚ)) =
          (((rest.getD t (0, 0)).2 : ℤ) : ℚ) * config.VariableGridDy /
            nestDiv config.Ynests (t + 1) := by
        intro t _
        rw [one_mul, show 1 + t + 1 = t + 1 + 1 from by omega]
        rfl
      rw [Finset.sum_congr rfl hc]
      ring
    have hXwid : config.VariableGridDx /
        (1 * ∏ j ∈ Finset.Ico 1 (1 + rest.length),
          ((config.Xnests.getD j 1 : ℤ) : ℚ)) =
        config.VariableGridDx /
          nestDiv config.Xnests ((ii :: rest).length - 1) := by
      rw [one_mul, List.length_cons, Nat.add_sub_cancel,
        show 1 + rest.length = rest.length + 1 from by omega]
      rfl
    have hYwid : config.VariableGridDy /
        (1 * ∏ j ∈ Finset.Ico 1 (1 + rest.length),
          ((config.Ynests.getD j 1 : ℤ) : ℚ)) =
        config.VariableGridDy /
          nestDiv config.Ynests ((ii :: rest).length - 1) := by
      rw [one_mul, List.length_cons, Nat.add_sub_cancel,
        show 1 + rest.length = rest.length + 1 from by omega]
      rfl
    exact ⟨hXsum, hYsum, by rw [← hXsum, ← hXwid], by rw [← hYsum, ← hYwid]⟩

/-- A concrete configuration for the footprint counterexample: unit
outer-grid spacing at the origin, two nest levels with `Xnests = [2,2]`
(outer grid 2 cells wide, split factor 2). -/
def geomTestConfig : VarGridConfig :=
  { VariableGridXo := 0, VariableGridYo := 0, VariableGridDx := 1
    VariableGridDy := 1, Xnests := [2, 2], Ynests := [2, 2] }

/-- C3 (counterexample): for the outer-grid cell with nest-index path
`[(1,1)]`, `cellGeometry` puts the lower-left x at `x₀ + 1·Δx = 1`,
whereas the claimed formula — whose divisor `Πⱼ≤ᵢ Xnestsⱼ` includes the
level-0 entry `Xnests[0] = 2` — yields `x₀ + 1·Δx/2 = 1/2`. -/
theorem cellGeometry_claimed_counterexample :
    (cellGeometry geomTestConfig [(1, 1)]).1 ≠
      claimedXleft geomTestConfig [(1, 1)] := by
  have hcode : (cellGeometry geomTestConfig [(1, 1)]).1 = 1 := by
    simp [cellGeometry, geomLoop, geomTestConfig]
  have hclaim : claimedXleft geomTestConfig [(1, 1)] = 1 / 2 := by
    simp [claimedXleft, nestDivFromZero, geomTestConfig,
      Finset.sum_range_one, Finset.prod_range_one]
  rw [hcode, hclaim]
  norm_num

/-! ## The simulation driver loop (`InMAP.Run`)

`Run` loops `for !d.Done { for _, f := range d.RunFuncs { ... } }`: the
`Done` flag is tested only at the top of the outer loop, and an inner
pass applies every entry of `RunFuncs` in order, stopping early only on
error. The model threads an explicit state (the `Done` flag plus an
observable counter standing for the rest of the `InMAP` struct) through
the manipulator functions, uses fuel for the unbounded outer loop
(`none` = still running after `fuel` passes), and records the trace of
invoked run-list positions. -/

/-- The driver state: the `Done` flag plus an observable stand-in for
the rest of the mutable `InMAP` state. -/
structure RunState where
  Done : Bool
  counter : ℤ
  deriving Repr, DecidableEq

/-- One pass of `Run`'s inner loop, from run-list position `i`: apply
each manipulator in order, stopping at the first error; also return the
list of positions invoked. -/
def runPassAux :
    List (RunState → Except String RunState) → ℕ → RunState →
      Except String RunState × List ℕ
  | [], _, s => (.ok s, [])
  | f :: rest, i, s =>
      match f s with
      | .error e => (.error e, [i])
      | .ok s' =>
          let r := runPassAux rest (i + 1) s'
          (r.1, i :: r.2)

/-- One full pass of `Run`'s inner loop over the run list. -/
def runPass (fs : List (RunState → Except String RunState))
    (s : RunState) : Except String RunState × List ℕ :=
  runPassAux fs 0 s

/-- `InMAP.Run` with fuel bounding the number of outer-loop passes
(`none` when the loop is still running after the fuel is spent): while
`!Done`, run a full pass, propagating errors; also return the trace of
invoked run-list positions. -/
def runDriver :
    ℕ → List (RunState → Except String RunState) → RunState →
      Option (Except String RunState × List ℕ)
  | 0, _, _ => none
  | n + 1, fs, s =>
      if s.Done then some (.ok s, [])
      else
        match runPass fs s with
        | (.error e, t) => some (.error e, t)
        | (.ok s', t) =>
            match runDriver n fs s' with
            | none => none
            | some (r, t') => some (r, t ++ t')

/-- A run-list entry that sets the `Done` flag (e.g. a convergence check
that succeeds). -/
def setDoneM : RunState → Except String RunState :=
  fun s => .ok { s with Done := true }

/-- A run-list entry with an observable effect (increments the
counter). -/
def incM : RunState → Except String RunState :=
  fun s => .ok { s with counter := s.counter + 1 }

/-- A successful pass invokes the whole run list in order: its trace
from position `i` is `[i, i+1, ...]` over the list's length. -/
theorem runPassAux_trace :
    ∀ (fs : List (RunState → Except String RunState)) (i : ℕ)
      (s s' : RunState), (runPassAux fs i s).1 = .ok s' →
      (runPassAux fs i s).2 = List.range' i fs.length := by
  intro fs
  induction fs with
  | nil => intro i s s' _; rfl
  | cons f rest ih =>
    intro i s s' h
    cases hf : f s with
    | error e =>
      rw [runPassAux] at h
      simp only [hf] at h
      cases h
    | ok s₁ =>
      rw [runPassAux] at h ⊢
      simp only [hf] at h ⊢
      rw [List.length_cons, List.range'_succ]
      exact congrArg (i :: ·) (ih (i + 1) s₁ s' h)

/-- C7 (counterexample): with run list `[setDoneM, incM]`, the `Done`
flag becomes true during entry 0, yet `Run` still invokes entry 1 of the
same pass (trace `[0, 1]`, counter incremented after `Done` was set) —
the loop does not exit at the next boundary between run-list entries. -/
theorem run_counterexample :
    setDoneM { Done := false, counter := 0 } =
      .ok { Done := true, counter := 0 } ∧
    runDriver 2 [setDoneM, incM] { Done := false, counter := 0 } =
      some (.ok { Done := true, counter := 1 }, [0, 1]) := by
  exact ⟨rfl, rfl⟩

/-- C7 (amended): `Run` invokes the run-list entries in list order and
consults `Done` only at pass boundaries — if `Done` holds, it exits
invoking nothing; otherwise an error-free pass invokes every entry (in
positional order `0,…,len−1`), even those after the entry during which
`Done` became true, and the loop exits at the next boundary between
complete passes. -/
theorem run_pass_boundaries
    (fs : List (RunState → Except String RunState)) (s : RunState)
    (n : ℕ) :
    (s.Done = true → runDriver (n + 1) fs s = some (.ok s, [])) ∧
    (s.Done = false → ∀ s', (runPass fs s).1 = .ok s' →
      (runPass fs s).2 = List.range fs.length ∧
      runDriver (n + 1) fs s = (runDriver n fs s').map fun rt =>
        (rt.1, List.range fs.length ++ rt.2)) := by
  constructor
  · intro hdone
    rw [runDriver, if_pos hdone]
  · intro hdone s' hok
    have htrace : (runPass fs s).2 = List.range fs.length := by
      rw [List.range_eq_range']
      exact runPassAux_trace fs 0 s s' hok
    refine ⟨htrace, ?_⟩
    have hps : runPass fs s = (.ok s', List.range fs.length) := by
      have h1 : runPass fs s = ((runPass fs s).1, (runPass fs s).2) := rfl
      rw [h1, hok, htrace]
    have hstep2 : runDriver (n + 1) fs s =
        match runDriver n fs s' with
        | none => none
        | some (r, t') => some (r, List.range fs.length ++ t') := by
      rw [runDriver, if_neg (by simp [hdone]), hps]
    rw [hstep2]
    cases runDriver n fs s' with
    | none => rfl
    | some rt =>
      obtain ⟨r, t'⟩ := rt
      rfl

/-- Witness for C7 (amended): a finished state exits at once with an
empty trace; from an unfinished state the pass `[setDoneM, incM]`
invokes both entries in order before the loop exits. -/
theorem run_pass_boundaries_witness :
    (({ Done := true, counter := 5 } : RunState).Done = true ∧
      runDriver 1 [setDoneM, incM] { Done := true, counter := 5 } =
        some (.ok { Done := true, counter := 5 }, [])) ∧
    (({ Done := false, counter := 0 } : RunState).Done = false ∧
      (runPass [setDoneM, incM] { Done := false, counter := 0 }).1 =
        .ok { Done := true, counter := 1 } ∧
      (runPass [setDoneM, incM] { Done := false, counter := 0 }).2 =
        List.range 2 ∧
      runDriver 2 [setDoneM, incM] { Done := false, counter := 0 } =
        (runDriver 1 [setDoneM, incM]
          { Done := true, counter := 1 }).map fun rt =>
            (rt.1, List.range 2 ++ rt.2)) :=
  ⟨⟨rfl, (run_pass_boundaries [setDoneM, incM]
      { Done := true, counter := 5 } 0).1 rfl⟩,
    ⟨rfl, rfl,
      ((run_pass_boundaries [setDoneM, incM]
        { Done := false, counter := 0 } 1).2 rfl
        { Done := true, counter := 1 } rfl).1,
      ((run_pass_boundaries [setDoneM, incM]
        { Done := false, counter := 0 } 1).2 rfl
        { Done := true, counter := 1 } rfl).2⟩⟩

/-! ## Time-step controller (`SetTimestepCFL`)

`SetTimestepCFL` computes, for each cell, the advection (CFL) time step
`dt1 = Cmax / √3 / max((|UAvg|+2·UDeviation)/Dx, (|VAvg|+2·VDeviation)/Dy,
|WAvg|/Dz)` and the von-Neumann diffusion time steps
`dt2 = Cmax·Dz²/(2·Kzz)`, `dt3 = Cmax·Dx²/(2·Kxxyy)`,
`dt4 = Cmax·Dy²/(2·Kxxyy)`, and folds `d.Dt = amin(d.Dt, dt1, …, dt4)`
over the cell list (starting from `amin(dt1,…,dt4)` of the first cell).
The helpers `max` and `amin` are not among the sources at hand; modelled
from the spec they are the maximum/minimum of their arguments. The time
steps live in `ℝ≥0∞`: in Go, a windless cell makes the denominator of
`dt1` zero and the IEEE quotient `+Inf`, which `ℝ≥0∞` reproduces
(`ENNReal.ofReal x / 0 = ∞` for positive `x`), whereas plain real
division would return 0 and spuriously drag the minimum down. -/

/-- The cell fields read by `SetTimestepCFL`. -/
structure CFLCell where
  UAvg : ℝ
  VAvg : ℝ
  WAvg : ℝ
  UDeviation : ℝ
  VDeviation : ℝ
  Dx : ℝ
  Dy : ℝ
  Dz : ℝ
  Kzz : ℝ
  Kxxyy : ℝ

/-- `const Cmax = 1.` in `SetTimestepCFL`. -/
noncomputable def Cmax : ℝ := 1

/-- `sqrt3 := math.Pow(3., 0.5)`. -/
noncomputable def sqrt3 : ℝ := Real.sqrt 3

/-- The advection denominator of `dt1`:
`max((|UAvg|+UDeviation·2)/Dx, (|VAvg|+VDeviation·2)/Dy, |WAvg|/Dz)`
(the variadic `max` helper, modelled from the spec as the maximum of its
arguments). -/
noncomputable def advTerm (c : CFLCell) : ℝ :=
  max (max ((|c.UAvg| + c.UDeviation * 2) / c.Dx)
    ((|c.VAvg| + c.VDeviation * 2) / c.Dy)) (|c.WAvg| / c.Dz)

/-- Advection time step `dt1 = Cmax / sqrt3 / advTerm` (IEEE `+Inf` for
a windless cell is the `ℝ≥0∞` quotient by zero). -/
noncomputable def dt1 (c : CFLCell) : ENNReal :=
  ENNReal.ofReal (Cmax / sqrt3) / ENNReal.ofReal (advTerm c)

/-- Vertical diffusion time step `dt2 = Cmax·Dz·Dz/2/Kzz`. -/
noncomputable def dt2 (c : CFLCell) : ENNReal :=
  ENNReal.ofReal (Cmax * c.Dz * c.Dz / 2) / ENNReal.ofReal c.Kzz

/-- Horizontal diffusion time step `dt3 = Cmax·Dx·Dx/2/Kxxyy`. -/
noncomputable def dt3 (c : CFLCell) : ENNReal :=
  ENNReal.ofReal (Cmax * c.Dx * c.Dx / 2) / ENNReal.ofReal c.Kxxyy

/-- Horizontal diffusion time step `dt4 = Cmax·Dy·Dy/2/Kxxyy`. -/
noncomputable def dt4 (c : CFLCell) : ENNReal :=
  ENNReal.ofReal (Cmax * c.Dy * c.Dy / 2) / ENNReal.ofReal c.Kxxyy

/-- `amin(dt1, dt2, dt3, dt4)` for one cell (the variadic `amin` helper,
modelled from the spec as the minimum of its arguments). -/
noncomputable def cellDt (c : CFLCell) : ENNReal :=
  min (dt1 c) (min (dt2 c) (min (dt3 c) (dt4 c)))

/-- The loop of `SetTimestepCFL`: at the first cell, `d.Dt` is replaced
by `amin(dt1,…,dt4)`; at every later cell, by
`amin(d.Dt, dt1, …, dt4)`; an empty grid leaves `d.Dt` unchanged. -/
noncomputable def setTimestepCFL : List CFLCell → ENNReal → ENNReal
  | [], Dt => Dt
  | c :: rest, _ =>
      rest.foldl (fun dt c => min dt (cellDt c)) (cellDt c)

/-- The `SetTimestepCFL` fold never exceeds its starting value. -/
theorem foldl_cellDt_le_init (l : List CFLCell) :
    ∀ a : ENNReal, l.foldl (fun dt c => min dt (cellDt c)) a ≤ a := by
  induction l with
  | nil => intro a; exact le_refl a
  | cons c rest ih =>
    intro a
    exact le_trans (ih (min a (cellDt c))) (min_le_left _ _)

/-- The `SetTimestepCFL` fold is below `cellDt` of every listed cell. -/
theorem foldl_cellDt_le_mem (l : List CFLCell) :
    ∀ (a : ENNReal) (c : CFLCell), c ∈ l →
      l.foldl (fun dt c => min dt (cellDt c)) a ≤ cellDt c := by
  induction l with
  | nil => intro a c hc; cases hc
  | cons c₁ rest ih =>
    intro a c hc
    rcases List.mem_cons.mp hc with hc | hc
    · subst hc
      exact le_trans (foldl_cellDt_le_init rest (min a (cellDt c)))
        (min_le_right _ _)
    · exact ih (min a (cellDt c₁)) c hc

/-- The `SetTimestepCFL` fold equals its starting value or `cellDt` of
some listed cell. -/
theorem foldl_cellDt_eq (l : List CFLCell) :
    ∀ a : ENNReal, l.foldl (fun dt c => min dt (cellDt c)) a = a ∨
      ∃ c ∈ l, l.foldl (fun dt c => min dt (cellDt c)) a = cellDt c := by
  induction l with
  | nil => intro a; exact Or.inl rfl
  | cons c₁ rest ih =>
    intro a
    rcases ih (min a (cellDt c₁)) with h | ⟨c, hc, h⟩
    · rcases min_cases a (cellDt c₁) with ⟨hmin, _⟩ | ⟨hmin, _⟩
      · exact Or.inl (by rw [List.foldl_cons, h, hmin])
      · exact Or.inr ⟨c₁, List.mem_cons_self c₁ rest,
          by rw [List.foldl_cons, h, hmin]⟩
    · exact Or.inr ⟨c, List.mem_cons_of_mem c₁ hc, h⟩

/-- `dt1` is positive (possibly `∞` for a windless cell). -/
theorem dt1_pos (c : CFLCell) : 0 < dt1 c := by
  apply ENNReal.div_pos
  · rw [Ne, ENNReal.ofReal_eq_zero, not_le, Cmax, sqrt3]
    exact div_pos one_pos (Real.sqrt_pos.mpr (by norm_num))
  · exact ENNReal.ofReal_ne_top

/-- `dt2` is positive for a cell with positive `Dz` and `Kzz`. -/
theorem dt2_pos (c : CFLCell) (hDz : 0 < c.Dz) : 0 < dt2 c := by
  apply ENNReal.div_pos
  · rw [Ne, ENNReal.ofReal_eq_zero, not_le, Cmax]
    nlinarith [mul_pos hDz hDz]
  · exact ENNReal.ofReal_ne_top

/-- `dt3` is positive for a cell with positive `Dx` and `Kxxyy`. -/
theorem dt3_pos (c : CFLCell) (hDx : 0 < c.Dx) : 0 < dt3 c := by
  apply ENNReal.div_pos
  · rw [Ne, ENNReal.ofReal_eq_zero, not_le, Cmax]
    nlinarith [mul_pos hDx hDx]
  · exact ENNReal.ofReal_ne_top

/-- `dt4` is positive for a cell with positive `Dy` and `Kxxyy`. -/
theorem dt4_pos (c : CFLCell) (hDy : 0 < c.Dy) : 0 < dt4 c := by
  apply ENNReal.div_pos
  · rw [Ne, ENNReal.ofReal_eq_zero, not_le, Cmax]
    nlinarith [mul_pos hDy hDy]
  · exact ENNReal.ofReal_ne_top

/-- `amin(dt1,…,dt4)` is positive under the cell hypotheses. -/
theorem cellDt_pos (c : CFLCell) (hDx : 0 < c.Dx) (hDy : 0 < c.Dy)
    (hDz : 0 < c.Dz) : 0 < cellDt c :=
  lt_min (dt1_pos c) (lt_min (dt2_pos c hDz)
    (lt_min (dt3_pos c hDx) (dt4_pos c hDy)))

/-- C1: after `SetTimestepCFL` runs on a grid with at least one cell,
each cell having positive `Kzz`, `Kxxyy`, `Dx`, `Dy`, `Dz`, the grid
time step equals the minimum over all cells of
`min(dt1, dt2, dt3, dt4)` (with `Cmax = 1`): it is attained at some
cell, bounded by each of `dt1 … dt4` of every cell, and strictly
positive. -/
theorem setTimestepCFL_spec (c₀ : CFLCell) (cs : List CFLCell)
    (Dt₀ : ENNReal)
    (h : ∀ c ∈ c₀ :: cs, 0 < c.Dx ∧ 0 < c.Dy ∧ 0 < c.Dz ∧
      0 < c.Kzz ∧ 0 < c.Kxxyy) :
    (∃ c ∈ c₀ :: cs, setTimestepCFL (c₀ :: cs) Dt₀ = cellDt c) ∧
    (∀ c ∈ c₀ :: cs, setTimestepCFL (c₀ :: cs) Dt₀ ≤ dt1 c ∧
      setTimestepCFL (c₀ :: cs) Dt₀ ≤ dt2 c ∧
      setTimestepCFL (c₀ :: cs) Dt₀ ≤ dt3 c ∧
      setTimestepCFL (c₀ :: cs) Dt₀ ≤ dt4 c) ∧
    0 < setTimestepCFL (c₀ :: cs) Dt₀ := by
  have hfold : setTimestepCFL (c₀ :: cs) Dt₀ =
      cs.foldl (fun dt c => min dt (cellDt c)) (cellDt c₀) := rfl
  have hex : ∃ c ∈ c₀ :: cs, setTimestepCFL (c₀ :: cs) Dt₀ = cellDt c := by
    rcases foldl_cellDt_eq cs (cellDt c₀) with h' | ⟨c, hc, h'⟩
    · exact ⟨c₀, List.mem_cons_self c₀ cs, by rw [hfold, h']⟩
    · exact ⟨c, List.mem_cons_of_mem c₀ hc, by rw [hfold, h']⟩
  have hle : ∀ c ∈ c₀ :: cs, setTimestepCFL (c₀ :: cs) Dt₀ ≤ cellDt c := by
    intro c hc
    rcases List.mem_cons.mp hc with hc | hc
    · subst hc
      rw [hfold]
      exact foldl_cellDt_le_init cs (cellDt c)
    · rw [hfold]
      exact foldl_cellDt_le_mem cs (cellDt c₀) c hc
  refine ⟨hex, ?_, ?_⟩
  · intro c hc
    have h1 := hle c hc
    exact ⟨le_trans h1 (min_le_left _ _),
      le_trans h1 (le_trans (min_le_right _ _) (min_le_left _ _)),
      le_trans h1 (le_trans (min_le_right _ _)
        (le_trans (min_le_right _ _) (min_le_left _ _))),
      le_trans h1 (le_trans (min_le_right _ _)
        (le_trans (min_le_right _ _) (min_le_right _ _)))⟩
  · obtain ⟨c, hc, heq⟩ := hex
    obtain ⟨hDx, hDy, hDz, _, _⟩ := h c hc
    rw [heq]
    exact cellDt_pos c hDx hDy hDz

/-- The CFL scenario cell: `Δx = Δy = 12000 m`, `Δz = 50 m`,
`U = V = 5 m/s`, `W = 0`, zero deviations, `Kzz = 10`, `Kxxyy = 50`. -/
noncomputable def cflTestCell : CFLCell :=
  { UAvg := 5, VAvg := 5, WAvg := 0, UDeviation := 0, VDeviation := 0
    Dx := 12000, Dy := 12000, Dz := 50, Kzz := 10, Kxxyy := 50 }

/-- Witness for C1 on the one-cell CFL scenario grid. -/
theorem setTimestepCFL_spec_witness :
    (∀ c ∈ [cflTestCell], 0 < c.Dx ∧ 0 < c.Dy ∧ 0 < c.Dz ∧
      0 < c.Kzz ∧ 0 < c.Kxxyy) ∧
    ((∃ c ∈ [cflTestCell],
        setTimestepCFL [cflTestCell] 0 = cellDt c) ∧
      (∀ c ∈ [cflTestCell], setTimestepCFL [cflTestCell] 0 ≤ dt1 c ∧
        setTimestepCFL [cflTestCell] 0 ≤ dt2 c ∧
        setTimestepCFL [cflTestCell] 0 ≤ dt3 c ∧
        setTimestepCFL [cflTestCell] 0 ≤ dt4 c) ∧
      0 < setTimestepCFL [cflTestCell] 0) := by
  have hyp : ∀ c ∈ [cflTestCell], 0 < c.Dx ∧ 0 < c.Dy ∧ 0 < c.Dz ∧
      0 < c.Kzz ∧ 0 < c.Kxxyy := by
    intro c hc
    have hc' : c = cflTestCell := by simpa using hc
    subst hc'
    refine ⟨?_, ?_, ?_, ?_, ?_⟩ <;> norm_num [cflTestCell]
  exact ⟨hyp, setTimestepCFL_spec cflTestCell [] 0 hyp⟩

end InMAP
